import Mathlib

set_option maxRecDepth 10000

/-!
Verification development for the SmartLetterGen document generator
(src/app.py).  The program is shallowly embedded: Python strings are
modelled as `List Char`, Python numbers as `Int`/`Rat` (binary floats are
treated as the exact rationals they denote), cell values as the inductive
type `Value`, docx runs/paragraphs/documents as explicit structures, and
the zip archive as the ordered list of `writestr` calls.
-/

namespace SLG

/-- Python strings are modelled as lists of characters. -/
abbrev Str : Type := List Char

/-- Coerce a Lean string literal to the `List Char` model. -/
def S (s : String) : Str := s.data

/-- Embedding of the regex class `\s` (ASCII whitespace as matched by
Python on the column names and template text this program handles). -/
def pyIsSpace (c : Char) : Bool :=
  c == ' ' || c == '\t' || c == '\n' || c == '\r' || c == Char.ofNat 11 || c == Char.ofNat 12

/-- Embedding of Python `str.strip()` (also of the whitespace trimming done
by the `\s*` groups of the placeholder regex). -/
def pyStrip (s : Str) : Str :=
  ((s.dropWhile pyIsSpace).reverse.dropWhile pyIsSpace).reverse

/-- Embedding of Python `str.lower()` (column names are ASCII). -/
def lowerStr (s : Str) : Str := s.map Char.toLower

/-- Decimal digit string of a natural number. -/
def natStr (n : Nat) : Str := (Nat.repr n).data

/-- Decimal digit string of an integer, embedding Python `str(int)`. -/
def intStr (n : Int) : Str := if n < 0 then '-' :: natStr n.natAbs else natStr n.natAbs

/-- Group a reversed digit string into blocks of three, least significant
block first; helper for the thousands separator of Python `format(x, ",")`. -/
def chunk3 : Str → List Str
  | [] => []
  | [a] => [[a]]
  | [a, b] => [[a, b]]
  | a :: b :: c :: rest => [a, b, c] :: chunk3 rest

/-- Thousands-separated rendering of a natural number, embedding the
f-string directive in `f-string comma` applied to a nonnegative int. -/
def natComma (n : Nat) : Str :=
  (List.intercalate [','] (chunk3 (natStr n).reverse)).reverse

/-- Thousands-separated rendering of an integer: Python f-string comma
formatting of an int. -/
def intComma (n : Int) : Str :=
  if n < 0 then '-' :: natComma n.natAbs else natComma n.natAbs

/-- Truncation toward zero of `num / den`, embedding Python `int(...)`
applied to a float (modelled as the exact rational `q`).  Computed with
flooring integer division on the numerator and positive denominator. -/
def ratTrunc (q : ℚ) : Int :=
  if 0 ≤ q.num then q.num.fdiv (q.den : Int) else -((-q.num).fdiv (q.den : Int))

/-- Round `n / d` (with `d > 0`) to the nearest integer, ties to even: the
rounding used by Python float formatting with a fixed number of decimals.
`r2` is twice the fractional remainder times `d`, compared against `d`. -/
def roundHalfEvenInt (n d : Int) : Int :=
  let f := n.fdiv d
  let r2 := 2 * (n - f * d)
  if r2 < d then f
  else if d < r2 then f + 1
  else if f % 2 = 0 then f else f + 1

/-- Embedding of the f-string fixed-point directive with two decimals
applied to `float(value)`: round `q * 100` half to even, then print with
exactly two digits after the point. -/
def format2d (q : ℚ) : Str :=
  let m := roundHalfEvenInt (q.num * 100) (q.den : Int)
  let a := m.natAbs
  (if m < 0 then ['-'] else []) ++
    natStr (a / 100) ++ '.' :: [Nat.digitChar (a / 10 % 10), Nat.digitChar (a % 10)]

/-- Smallest exponent k (up to the given fuel) with `d` dividing `10 ^ k`,
i.e. the number of decimals of the exact decimal expansion of a fraction
with denominator `d`; `Option.none` if there is none within fuel.  Every
Python float is a dyadic rational, so for values denoting floats this
always succeeds with ample fuel. -/
def findDecExp (d : Nat) (fuel : Nat) : Option Nat :=
  (List.range (fuel + 1)).find? (fun k => 10 ^ k % d == 0)

/-- Left-pad a digit string with zeros to the given width. -/
def padZeros (s : Str) (k : Nat) : Str := List.replicate (k - s.length) '0' ++ s

/-- Embedding of Python `str(float)` for floats with a finite decimal
expansion (all actual floats): print the exact decimal expansion, with at
least one digit after the point, as `repr` of a float does for the values
this program manipulates. -/
def floatStr (q : ℚ) : Str :=
  match findDecExp q.den 1200 with
  | Option.none => intStr (ratTrunc q)
  | some k =>
    let m : Int := (q.num * (10 : Int) ^ k).fdiv (q.den : Int)
    if k = 0 then intStr m ++ S (".0")
    else
      let a := m.natAbs
      (if m < 0 then ['-'] else []) ++
        natStr (a / 10 ^ k) ++ '.' :: padZeros (natStr (a % 10 ^ k)) k

/-- Prefix test on character lists (Boolean, by character equality). -/
def isPre : Str → Str → Bool
  | [], _ => true
  | _ :: _, [] => false
  | a :: as, b :: bs => a == b && isPre as bs

/-- Substring test, embedding the Python expression `sub in s`. -/
def containsSub (sub : Str) : Str → Bool
  | [] => sub.isEmpty
  | c :: rest => isPre sub (c :: rest) || containsSub sub rest

/-- A raw cell value handed to the formatter: a Python int, float (as the
exact rational it denotes), string, `None`, or a pandas NaN. -/
inductive Value
  | int (n : Int)
  | float (q : ℚ)
  | str (s : Str)
  | none
  | nan
deriving DecidableEq

/-- Embedding of Python `str(value)` on the values this program handles. -/
def pyStr : Value → Str
  | Value.int n => intStr n
  | Value.float q => floatStr q
  | Value.str s => s
  | Value.none => S ("None")
  | Value.nan => S ("nan")

/-- Numeric value of a digit string (digits only, most significant first). -/
def digitsToNat (ds : Str) : Nat := ds.foldl (fun acc c => 10 * acc + (c.toNat - '0'.toNat)) 0

/-- Split an optional leading sign, returning its multiplier. -/
def parseSign : Str → ℚ × Str
  | '-' :: r => (-1, r)
  | '+' :: r => (1, r)
  | t => (1, t)

/-- Split an optional leading exponent sign, returning whether negative. -/
def parseExpSign : Str → Bool × Str
  | '-' :: r => (true, r)
  | '+' :: r => (false, r)
  | t => (false, t)

/-- Embedding of Python `float(str)`: optional surrounding whitespace and
sign, decimal digits with an optional point and an optional exponent;
`Option.none` models the `ValueError` raised on anything else.  (The
special spellings inf and nan are not modelled; for them the program falls
back to the raw string either way, since `int(...)` on them raises.) -/
def parseFloat (s : Str) : Option ℚ :=
  let t := pyStrip s
  let p := parseSign t
  let ip := p.2.span Char.isDigit
  let fr : Str × Str :=
    match ip.2 with
    | '.' :: r => r.span Char.isDigit
    | _ => ([], ip.2)
  if ip.1 = [] ∧ fr.1 = [] then Option.none
  else
    let mant : ℚ := (digitsToNat ip.1 : ℚ) + (digitsToNat fr.1 : ℚ) / (10 : ℚ) ^ fr.1.length
    match fr.2 with
    | [] => some (p.1 * mant)
    | e :: r3 =>
      if e == 'e' || e == 'E' then
        let q := parseExpSign r3
        let ed := q.2.span Char.isDigit
        if ed.1 = [] ∨ ed.2 ≠ [] then Option.none
        else
          some (p.1 * mant *
            (if q.1 then 1 / (10 : ℚ) ^ digitsToNat ed.1 else (10 : ℚ) ^ digitsToNat ed.1))
      else Option.none

/-- Embedding of Python `float(value)` as used inside `format_value`:
ints and floats convert exactly, strings are parsed, `None` and NaN are
the failure cases (for NaN the subsequent `int(...)` raises, which the
surrounding `try` turns into the same fallback as a parse failure). -/
def toFloat : Value → Option ℚ
  | Value.int n => some ((n : Int) : ℚ)
  | Value.float q => some q
  | Value.str s => parseFloat s
  | Value.none => Option.none
  | Value.nan => Option.none

/-- Embedding of `format_value` (src/app.py lines 75-103): early return on
`None`, then at most one numeric directive chosen by case-insensitive
substring test in the order comma, currency, two-decimals; a failed parse
is swallowed by the bare `except`, leaving the default string form. -/
def format_value (key : Str) (value : Value) : Str :=
  if value = Value.none then []
  else
    let value_str := pyStr value
    let key_lower := lowerStr key
    if containsSub (S ("_comma")) key_lower then
      match toFloat value with
      | some q => intComma (ratTrunc q)
      | Option.none => value_str
    else if containsSub (S ("_c")) key_lower then
      match toFloat value with
      | some q => '₹' :: intComma (ratTrunc q)
      | Option.none => value_str
    else if containsSub (S ("_2d")) key_lower then
      match toFloat value with
      | some q => format2d q
      | Option.none => value_str
    else value_str

/-- The three style flags returned by `get_text_style`. -/
structure TextStyle where
  bold : Bool
  italic : Bool
  underline : Bool
deriving DecidableEq

/-- Embedding of `get_text_style` (src/app.py lines 106-117): three
independent case-insensitive substring tests that each set one flag. -/
def get_text_style (key : Str) : TextStyle :=
  let key_lower := lowerStr key
  let s0 : TextStyle := ⟨false, false, false⟩
  let s1 : TextStyle := if containsSub (S ("_b")) key_lower then ⟨true, s0.italic, s0.underline⟩ else s0
  let s2 : TextStyle := if containsSub (S ("_i")) key_lower then ⟨s1.bold, true, s1.underline⟩ else s1
  if containsSub (S ("_u")) key_lower then ⟨s2.bold, s2.italic, true⟩ else s2

/-- A docx run: its text plus the tri-state bold/italic/underline flags and
optional font size, as exposed by python-docx (`Option.none` = inherited). -/
structure Run where
  text : Str
  bold : Option Bool
  italic : Option Bool
  underline : Option Bool
  size : Option Nat
deriving DecidableEq

/-- A docx paragraph: its ordered run sequence. -/
structure Paragraph where
  runs : List Run
deriving DecidableEq

/-- The visible text of a run sequence, embedding
`join of run.text for run in para.runs`. -/
def joinRuns (rs : List Run) : Str := (rs.map Run.text).foldr (· ++ ·) []

/-- Font size of the first run, embedding `para.runs[0].font.size` guarded
by `if para.runs`. -/
def headSize : List Run → Option Nat
  | [] => Option.none
  | r :: _ => r.size

/-- Python truthiness of an optional font size, embedding
`if original_font_size`. -/
def truthySize : Option Nat → Bool
  | Option.none => false
  | some n => n != 0

/-- The size actually written onto a freshly added run: the baseline size
when truthy, otherwise left unset. -/
def applySize (sz : Option Nat) : Option Nat :=
  if truthySize sz then sz else Option.none

/-- A run created by `para.add_run` for literal text: no explicit styling,
baseline font size reapplied when truthy. -/
def plainRun (t : Str) (sz : Option Nat) : Run :=
  ⟨t, Option.none, Option.none, Option.none, applySize sz⟩

/-- A run created for a substituted value: formatted text, explicit
bold/italic/underline from the style resolver, baseline size when truthy. -/
def valueRun (key : Str) (v : Value) (sz : Option Nat) : Run :=
  ⟨format_value key v, some (get_text_style key).bold, some (get_text_style key).italic,
    some (get_text_style key).underline, applySize sz⟩

/-- Dict lookup on the row data, embedding `key in data` / `data[key]`
(pandas column names are distinct, so first match is the dict entry). -/
def lookupVal : List (Str × Value) → Str → Option Value
  | [], _ => Option.none
  | (k, v) :: rest, key => if k = key then some v else lookupVal rest key

/-- State machine embedding `re.findall` of the placeholder regex
(open brace, lazy body, close brace, with the two whitespace-trimming
groups): the scanner takes the leftmost open brace, matches up to the
first close brace after it, returns the whitespace-trimmed inner text and
continues after the close brace.  `inside` is the in-braces flag and `acc`
the reversed inner text collected so far.  (Newlines inside a token, which
the regex dot would reject, do not occur in this development.) -/
def findAllSt : Bool → Str → Str → List Str
  | false, _, [] => []
  | false, _, c :: rest =>
    if c = '{' then findAllSt true [] rest else findAllSt false [] rest
  | true, _, [] => []
  | true, acc, c :: rest =>
    if c = '}' then pyStrip acc.reverse :: findAllSt false [] rest
    else findAllSt true (c :: acc) rest

/-- All placeholder matches of a text, embedding `pattern.findall`. -/
def findAll (s : Str) : List Str := findAllSt false [] s

/-- Index of the first occurrence of `sub` in `s`, if any. -/
def firstMatchPos (s sub : Str) : Option Nat :=
  match s with
  | [] => if sub = [] then some 0 else Option.none
  | c :: rest =>
    if isPre sub (c :: rest) then some 0 else (firstMatchPos rest sub).map (· + 1)

/-- Embedding of Python `full_text.find(placeholder, last_idx)`: index of
the first occurrence at or after `start`, `-1` when absent.  In this
program `last_idx` is provably nonnegative at every call. -/
def strFind (s sub : Str) (start : Nat) : Int :=
  match firstMatchPos (s.drop start) sub with
  | some k => ((start + k : Nat) : Int)
  | Option.none => -1

/-- Python slice `s[lo:hi]` for the nonnegative indices this program uses. -/
def slice (s : Str) (lo hi : Nat) : Str := (s.take hi).drop lo

/-- The run-rebuilding loop of `process_paragraph` (src/app.py lines
138-168): for each regex match, reconstruct the literal placeholder
(without the original inner whitespace, exactly as the source does), find
it from `last_idx`, emit the preceding literal run when `start > last_idx`,
emit a styled value run when the key is present in the row, advance
`last_idx` past the placeholder, and finally emit the trailing literal
run when text remains.  `strFind` returning `-1` flows into the index
arithmetic exactly as in Python. -/
def replLoopRuns (full : Str) (data : List (Str × Value)) (sz : Option Nat) :
    List Str → Nat → List Run
  | [], last_idx =>
    if last_idx < full.length then [plainRun (full.drop last_idx) sz] else []
  | m :: ms, last_idx =>
    let placeholder : Str := '{' :: (m ++ ['}'])
    let start : Int := strFind full placeholder last_idx
    let key := pyStrip m
    (if (last_idx : Int) < start then [plainRun (slice full last_idx start.toNat) sz] else []) ++
      (match lookupVal data key with
       | some v => [valueRun key v sz]
       | Option.none => []) ++
      replLoopRuns full data sz ms (start + (placeholder.length : Int)).toNat

/-- Embedding of `process_paragraph` (src/app.py lines 123-168): join the
run texts; skip when the text is empty or the regex finds no match;
otherwise capture the first run font size, clear the paragraph and rebuild
it with the loop. -/
def processParagraph (data : List (Str × Value)) (para : Paragraph) : Paragraph :=
  let full_text := joinRuns para.runs
  if full_text = [] then para
  else
    let found := findAll full_text
    if found = [] then para
    else ⟨replLoopRuns full_text data (headSize para.runs) found 0⟩

/-- A docx document: its paragraphs and its tables
(table → rows → cells → paragraphs). -/
structure Doc where
  paragraphs : List Paragraph
  tables : List (List (List (List Paragraph)))
deriving DecidableEq

/-- Embedding of `replace_placeholders` (src/app.py lines 120-179):
process every paragraph and every paragraph of every table cell. -/
def replace_placeholders (doc : Doc) (data : List (Str × Value)) : Doc :=
  ⟨doc.paragraphs.map (processParagraph data),
    doc.tables.map (fun tbl => tbl.map (fun row => row.map (fun cell =>
      cell.map (processParagraph data))))⟩

/-- Embedding of `pd.isna` on the values this program handles. -/
def isNA : Value → Bool
  | Value.nan => true
  | Value.none => true
  | _ => false

/-- Embedding of the `row_data` dict comprehension (src/app.py lines
210-213): pair each column with its cell, normalizing missing values to
the empty string. -/
def buildRowData (cols : List Str) (row : List Value) : List (Str × Value) :=
  (cols.zip row).map (fun p => (p.1, if isNA p.2 then Value.str [] else p.2))

/-- Embedding of the output filename f-string (src/app.py line 221),
built from the raw first and second cell of the row. -/
def rowFilename (row : List Value) : Str :=
  pyStr (row.getD 0 (Value.str [])) ++ '_' :: (pyStr (row.getD 1 (Value.str [])) ++ S (".docx"))

/-- Embedding of the generation loop (src/app.py lines 206-222): one fresh
copy of the template per row, substituted and written into the archive
under the per-row filename.  `zipfile.writestr` appends an entry to the
archive unconditionally (CPython only warns on duplicate names), so the
archive is modelled as the ordered list of written entries.  Byte
serialization of each document is I/O glue and is not modelled: entries
carry the document itself. -/
def generateZip (template : Doc) (cols : List Str) (rows : List (List Value)) :
    List (Str × Doc) :=
  rows.map (fun row => (rowFilename row, replace_placeholders template (buildRowData cols row)))

/-- Embedding of the validation-then-generation pipeline (src/app.py lines
182-222): fewer than two columns, a first column not starting with ecode
(case-insensitively), or a second column not starting with name halts with
a diagnostic before any document is generated; otherwise the archive is
produced.  The diagnostics paraphrase the `st.error` messages. -/
def runApp (template : Doc) (cols : List Str) (rows : List (List Value)) :
    Except Str (List (Str × Doc)) :=
  match cols with
  | c0 :: c1 :: _ =>
    if isPre (S ("ecode")) (lowerStr c0) = false then
      Except.error (S ("First column must start with ECode."))
    else if isPre (S ("name")) (lowerStr c1) = false then
      Except.error (S ("Second column must start with Name."))
    else Except.ok (generateZip template cols rows)
  | _ => Except.error (S ("Excel must contain at least ECode and Name columns."))

/-- A well-formed placeholder key for the structural theorems: no braces
and no whitespace (so the regex group is the key itself). -/
def keyOk (k : Str) : Prop := ∀ c ∈ k, c ≠ '{' ∧ c ≠ '}' ∧ pyIsSpace c = false

instance (k : Str) : Decidable (keyOk k) :=
  List.decidableBAll (fun c => c ≠ '{' ∧ c ≠ '}' ∧ pyIsSpace c = false) k

/-- Side conditions for one token-plus-trailing-literal chunk. -/
def chunkOk (p : Str × Str) : Prop := keyOk p.1 ∧ '{' ∉ p.2

/-- A paragraph text of the shape
`t0 ++ open k1 close ++ t1 ++ open k2 close ++ ... ++ tn`:
leading literal, then one token and trailing literal per chunk. -/
def chunksText : Str → List (Str × Str) → Str
  | t0, [] => t0
  | t0, (k, t) :: ps => t0 ++ '{' :: (k ++ '}' :: chunksText t ps)

/-- The run sequence the rebuild produces on a chunk-shaped paragraph:
per chunk an optional literal run, then a value run when the key is
present; a final literal run for a nonempty trailing literal. -/
def expectedRuns (data : List (Str × Value)) (sz : Option Nat) :
    Str → List (Str × Str) → List Run
  | t, [] => if t = [] then [] else [plainRun t sz]
  | t, (k, t') :: ps =>
    (if t = [] then [] else [plainRun t sz]) ++
      (match lookupVal data k with
       | some v => [valueRun k v sz]
       | Option.none => []) ++
      expectedRuns data sz t' ps

/-- The visible text of the rebuilt paragraph: literals interleaved with
formatted values (absent keys contribute nothing). -/
def renderText (data : List (Str × Value)) : Str → List (Str × Str) → Str
  | t, [] => t
  | t, (k, t') :: ps =>
    t ++ (match lookupVal data k with
          | some v => format_value k v
          | Option.none => []) ++ renderText data t' ps

/-- Template document used in the duplicate-filename scenario: one
paragraph containing a single Msg placeholder. -/
def tmplC10 : Doc :=
  ⟨[⟨[⟨S ("\x7bMsg\x7d"), Option.none, Option.none, Option.none, Option.none⟩]⟩], []⟩

/-- Column names of the duplicate-filename scenario. -/
def colsC10 : List Str := [S ("ECode"), S ("Name"), S ("Msg")]

/-- First data row of the duplicate-filename scenario. -/
def rowC10A : List Value := [Value.str (S ("E1")), Value.str (S ("Bob")), Value.str (S ("hi"))]

/-- Second data row: same identifier and name, different message. -/
def rowC10B : List Value := [Value.str (S ("E1")), Value.str (S ("Bob")), Value.str (S ("yo"))]

/-! ## Helper lemmas -/

theorem digitChar_isDigit {n : Nat} (h : n < 10) : (Nat.digitChar n).isDigit = true := by
  interval_cases n <;> decide

/-- Every output of `format2d` ends in a point followed by exactly two
decimal digits. -/
theorem format2d_shape (q : ℚ) :
    ∃ t d1 d2, format2d q = t ++ '.' :: [d1, d2] ∧ d1.isDigit = true ∧ d2.isDigit = true := by
  refine ⟨(if roundHalfEvenInt (q.num * 100) (q.den : Int) < 0 then ['-'] else []) ++
      natStr ((roundHalfEvenInt (q.num * 100) (q.den : Int)).natAbs / 100),
    Nat.digitChar ((roundHalfEvenInt (q.num * 100) (q.den : Int)).natAbs / 10 % 10),
    Nat.digitChar ((roundHalfEvenInt (q.num * 100) (q.den : Int)).natAbs % 10),
    ?_, digitChar_isDigit (Nat.mod_lt _ (by decide)), digitChar_isDigit (Nat.mod_lt _ (by decide))⟩
  simp [format2d, List.append_assoc]

theorem format_value_ne_none {v : Value} {q : ℚ} (hq : toFloat v = some q) :
    v ≠ Value.none := by
  intro h; subst h; simp [toFloat] at hq

/-- Skip rule of the engine: empty reconstructed text leaves the
paragraph untouched. -/
theorem processParagraph_skip_empty (data : List (Str × Value)) (para : Paragraph)
    (h : joinRuns para.runs = []) : processParagraph data para = para := by
  simp [processParagraph, h]

/-- Skip rule of the engine: no regex match leaves the paragraph
untouched. -/
theorem processParagraph_skip_nomatch (data : List (Str × Value)) (para : Paragraph)
    (h : findAll (joinRuns para.runs) = []) : processParagraph data para = para := by
  by_cases h0 : joinRuns para.runs = []
  · simp [processParagraph, h0]
  · simp [processParagraph, h0, h]

theorem dropWhile_eq_self {p : Char → Bool} {l : Str} (h : ∀ c ∈ l, p c = false) :
    l.dropWhile p = l := by
  cases l with
  | nil => rfl
  | cons a t => simp [List.dropWhile_cons, h a (List.mem_cons_self a t)]

theorem pyStrip_eq_self {k : Str} (h : ∀ c ∈ k, pyIsSpace c = false) : pyStrip k = k := by
  unfold pyStrip
  rw [dropWhile_eq_self h, dropWhile_eq_self fun c hc => h c (List.mem_reverse.mp hc),
    List.reverse_reverse]

theorem keyOk_noClose {k : Str} (hk : keyOk k) : '}' ∉ k :=
  fun h => (hk _ h).2.1 rfl

theorem keyOk_strip {k : Str} (hk : keyOk k) : pyStrip k = k :=
  pyStrip_eq_self fun c hc => (hk c hc).2.2

theorem findAllSt_outside {a : Str} (h : '{' ∉ a) (s : Str) :
    findAllSt false [] (a ++ s) = findAllSt false [] s := by
  induction a with
  | nil => rfl
  | cons c t ih =>
    have hc : c ≠ '{' := fun hh => h (hh ▸ List.mem_cons_self c t)
    have ht : '{' ∉ t := fun hh => h (List.mem_cons_of_mem c hh)
    simp [findAllSt, hc, ih ht]

theorem findAll_noOpen {a : Str} (h : '{' ∉ a) : findAll a = [] := by
  have h2 := findAllSt_outside h []
  rw [List.append_nil] at h2
  simpa [findAll] using h2

theorem findAllSt_inside : ∀ (k : Str), '}' ∉ k → ∀ (acc C : Str),
    findAllSt true acc (k ++ '}' :: C) = pyStrip (acc.reverse ++ k) :: findAllSt false [] C := by
  intro k
  induction k with
  | nil => intro _ acc C; simp [findAllSt]
  | cons c t ih =>
    intro h acc C
    have hc : c ≠ '}' := fun hh => h (hh ▸ List.mem_cons_self c t)
    have ht : '}' ∉ t := fun hh => h (List.mem_cons_of_mem c hh)
    rw [List.cons_append]
    simp only [findAllSt, if_neg hc, ih ht (c :: acc) C]
    simp [List.reverse_cons, List.append_assoc]

/-- The regex matches on a chunk-shaped text are exactly the chunk keys. -/
theorem findAll_chunks : ∀ (ps : List (Str × Str)) (t : Str), '{' ∉ t →
    (∀ p ∈ ps, chunkOk p) → findAll (chunksText t ps) = ps.map Prod.fst := by
  intro ps
  induction ps with
  | nil => intro t ht _; simpa [chunksText] using findAll_noOpen ht
  | cons hd tl ih =>
    intro t ht hps
    obtain ⟨k, t'⟩ := hd
    have hk : keyOk k := (hps (k, t') (List.mem_cons_self _ _)).1
    have ht' : '{' ∉ t' := (hps (k, t') (List.mem_cons_self _ _)).2
    have htl : ∀ p ∈ tl, chunkOk p := fun p hp => hps p (List.mem_cons_of_mem _ hp)
    show findAll (t ++ '{' :: (k ++ '}' :: chunksText t' tl)) = k :: tl.map Prod.fst
    unfold findAll
    rw [findAllSt_outside ht]
    have hstep : findAllSt false [] ('{' :: (k ++ '}' :: chunksText t' tl))
        = findAllSt true [] (k ++ '}' :: chunksText t' tl) := by
      simp [findAllSt]
    rw [hstep, findAllSt_inside k (keyOk_noClose hk) [] (chunksText t' tl)]
    simp only [List.reverse_nil, List.nil_append, keyOk_strip hk]
    have hrest := ih t' ht' htl
    unfold findAll at hrest
    rw [hrest]

theorem isPre_append_self : ∀ (p r : Str), isPre p (p ++ r) = true := by
  intro p
  induction p with
  | nil => intro r; rfl
  | cons c t ih => intro r; simp [isPre, ih r]

theorem firstMatchPos_concat : ∀ (a : Str), '{' ∉ a → ∀ (r p : Str),
    isPre ('{' :: p) ('{' :: r) = true →
    firstMatchPos (a ++ '{' :: r) ('{' :: p) = some a.length := by
  intro a
  induction a with
  | nil => intro _ r p hp; simp [firstMatchPos, hp]
  | cons c t ih =>
    intro h r p hp
    have hc : c ≠ '{' := fun hh => h (hh ▸ List.mem_cons_self c t)
    have ht : '{' ∉ t := fun hh => h (List.mem_cons_of_mem c hh)
    have hpre : isPre ('{' :: p) (c :: (t ++ '{' :: r)) = false := by
      have hb : ('{' == c) = false := beq_eq_false_iff_ne.mpr (Ne.symm hc)
      simp [isPre, hb]
    rw [List.cons_append]
    simp [firstMatchPos, hpre, ih ht r p hp]

theorem take_len_append : ∀ (x y : Str) (n : Nat), (x ++ y).take (x.length + n) = x ++ y.take n := by
  intro x
  induction x with
  | nil => intro y n; simp
  | cons c t ih =>
    intro y n
    rw [List.cons_append, List.length_cons, Nat.add_right_comm, List.take_succ_cons, ih,
      List.cons_append]

theorem slice_middle (x y z : Str) :
    slice (x ++ (y ++ z)) x.length (x.length + y.length) = y := by
  have h1 := take_len_append x (y ++ z) y.length
  have h2 := take_len_append y z 0
  simp only [Nat.add_zero, List.take_zero, List.append_nil] at h2
  unfold slice
  rw [h1, h2, List.drop_left]

/-- Where `str.find` lands when searching the reconstructed placeholder of
the next chunk from the current scan position. -/
theorem strFind_at (done t k rest : Str) (ht : '{' ∉ t) :
    strFind (done ++ (t ++ '{' :: (k ++ '}' :: rest))) ('{' :: (k ++ ['}'])) done.length
      = ((done.length + t.length : Nat) : Int) := by
  unfold strFind
  rw [List.drop_left]
  have hsh : k ++ '}' :: rest = (k ++ ['}']) ++ rest := by simp
  have hp : isPre ('{' :: (k ++ ['}'])) ('{' :: (k ++ '}' :: rest)) = true := by
    rw [hsh, ← List.cons_append]
    exact isPre_append_self ('{' :: (k ++ ['}'])) rest
  rw [firstMatchPos_concat t ht _ _ hp]

/-- Master lemma for the rebuild loop: on a chunk-shaped text, with the
scan position at the end of the processed prefix, the loop emits exactly
the expected run sequence. -/
theorem replLoop_chunks (data : List (Str × Value)) (sz : Option Nat) :
    ∀ (ps : List (Str × Str)) (t done : Str), '{' ∉ t → (∀ p ∈ ps, chunkOk p) →
      replLoopRuns (done ++ chunksText t ps) data sz (ps.map Prod.fst) done.length
        = expectedRuns data sz t ps := by
  intro ps
  induction ps with
  | nil =>
    intro t done ht _
    simp only [chunksText, List.map_nil, replLoopRuns, expectedRuns]
    rw [List.drop_left, List.length_append]
    rcases t with _ | ⟨c, t0⟩
    · simp
    · simp
  | cons hd tl ih =>
    intro t done ht hps
    obtain ⟨k, t'⟩ := hd
    have hk : keyOk k := (hps (k, t') (List.mem_cons_self _ _)).1
    have ht' : '{' ∉ t' := (hps (k, t') (List.mem_cons_self _ _)).2
    have htl : ∀ p ∈ tl, chunkOk p := fun p hp => hps p (List.mem_cons_of_mem _ hp)
    simp only [chunksText, List.map_cons, replLoopRuns]
    rw [strFind_at done t k (chunksText t' tl) ht, keyOk_strip hk]
    have hidx : ((((done.length + t.length : Nat) : Int)
        + (('{' :: (k ++ ['}'])).length : Int)).toNat)
        = (done ++ t ++ '{' :: (k ++ ['}'])).length := by
      rw [← Nat.cast_add, Int.toNat_natCast]
      simp [List.length_append, List.length_cons]
      omega
    have hfull : done ++ (t ++ '{' :: (k ++ '}' :: chunksText t' tl))
        = (done ++ t ++ '{' :: (k ++ ['}'])) ++ chunksText t' tl := by
      simp [List.append_assoc]
    rw [hidx, hfull, ih t' (done ++ t ++ '{' :: (k ++ ['}'])) ht' htl]
    by_cases ht0 : t = []
    · subst ht0
      simp only [expectedRuns, if_pos rfl, List.length_nil, Nat.add_zero, List.nil_append]
      rw [if_neg (by omega : ¬ ((done.length : Int) < ((done.length : Nat) : Int)))]
      simp
    · have hlt : (done.length : Int) < ((done.length + t.length : Nat) : Int) := by
        exact_mod_cast Nat.lt_add_of_pos_right (List.length_pos.mpr ht0)
      rw [if_pos hlt]
      have htn : ((done.length + t.length : Nat) : Int).toNat = done.length + t.length :=
        Int.toNat_natCast _
      rw [htn]
      have hs := slice_middle done t ('{' :: (k ++ '}' :: chunksText t' tl))
      rw [hfull] at hs
      rw [hs]
      simp only [expectedRuns, if_neg ht0]

/-- The engine on a chunk-shaped paragraph: the paragraph is rebuilt into
exactly the expected run sequence. -/
theorem processParagraph_chunks (data : List (Str × Value)) (rs : List Run)
    (t0 : Str) (ps : List (Str × Str)) (h0 : '{' ∉ t0)
    (hps : ∀ p ∈ ps, chunkOk p) (hne : ps ≠ [])
    (hjoin : joinRuns rs = chunksText t0 ps) :
    processParagraph data ⟨rs⟩ = ⟨expectedRuns data (headSize rs) t0 ps⟩ := by
  obtain ⟨hd, tl, rfl⟩ : ∃ hd tl, ps = hd :: tl := by
    rcases ps with _ | ⟨hd, tl⟩
    · exact absurd rfl hne
    · exact ⟨hd, tl, rfl⟩
  obtain ⟨k, t'⟩ := hd
  have hfulltext : joinRuns rs ≠ [] := by
    rw [hjoin]
    simp [chunksText]
  have hm : findAll (joinRuns rs) = ((k, t') :: tl).map Prod.fst := by
    rw [hjoin]; exact findAll_chunks _ _ h0 hps
  simp only [processParagraph]
  rw [if_neg hfulltext, hm]
  rw [if_neg (by simp : ¬ (((k, t') :: tl).map Prod.fst = []))]
  rw [hjoin]
  exact congrArg Paragraph.mk (replLoop_chunks data (headSize rs) ((k, t') :: tl) t0 [] h0 hps)

theorem joinRuns_nil : joinRuns [] = [] := rfl

theorem joinRuns_cons (r : Run) (rs : List Run) : joinRuns (r :: rs) = r.text ++ joinRuns rs := rfl

theorem joinRuns_append (a : List Run) (b : List Run) :
    joinRuns (a ++ b) = joinRuns a ++ joinRuns b := by
  induction a with
  | nil => simp [joinRuns_nil]
  | cons r t ih => simp [joinRuns_cons, ih, List.append_assoc]

/-- The visible text of the expected run sequence. -/
theorem joinRuns_expectedRuns (data : List (Str × Value)) (sz : Option Nat) :
    ∀ (ps : List (Str × Str)) (t : Str),
      joinRuns (expectedRuns data sz t ps) = renderText data t ps := by
  intro ps
  induction ps with
  | nil =>
    intro t
    by_cases h : t = [] <;>
      simp [expectedRuns, renderText, h, joinRuns_nil, joinRuns_cons, plainRun]
  | cons hd tl ih =>
    intro t
    obtain ⟨k, t'⟩ := hd
    by_cases h : t = [] <;>
      rcases hl : lookupVal data k with _ | v <;>
        simp [expectedRuns, renderText, h, hl, joinRuns_append, ih t',
          joinRuns_nil, joinRuns_cons, plainRun, valueRun, List.append_assoc]

/-! ## Claims -/

/-- Claim C1: `format_value` applies at most one numeric directive, chosen
by case-insensitive substring test in the fixed order comma, currency,
two-decimals, first match wins: a column containing the comma marker
renders any numeric value truncated to integer with thousands separators;
the currency marker without the comma marker renders the same prefixed
with the rupee sign; the two-decimal marker alone renders with exactly two
decimal digits; with no directive the default string form is returned.
The two concrete renderings of the claim are included. -/
theorem claim_C1 :
    (∀ (key : Str) (v : Value) (q : ℚ), toFloat v = some q →
        containsSub (S ("_comma")) (lowerStr key) = true →
        format_value key v = intComma (ratTrunc q))
    ∧ (∀ (key : Str) (v : Value) (q : ℚ), toFloat v = some q →
        containsSub (S ("_comma")) (lowerStr key) = false →
        containsSub (S ("_c")) (lowerStr key) = true →
        format_value key v = '₹' :: intComma (ratTrunc q))
    ∧ (∀ (key : Str) (v : Value) (q : ℚ), toFloat v = some q →
        containsSub (S ("_comma")) (lowerStr key) = false →
        containsSub (S ("_c")) (lowerStr key) = false →
        containsSub (S ("_2d")) (lowerStr key) = true →
        format_value key v = format2d q ∧
          ∃ t d1 d2, format2d q = t ++ '.' :: [d1, d2] ∧ d1.isDigit = true ∧ d2.isDigit = true)
    ∧ (∀ (key : Str) (v : Value), v ≠ Value.none →
        containsSub (S ("_comma")) (lowerStr key) = false →
        containsSub (S ("_c")) (lowerStr key) = false →
        containsSub (S ("_2d")) (lowerStr key) = false →
        format_value key v = pyStr v)
    ∧ format_value (S ("Users_comma_b")) (Value.int 1000000) = S ("1,000,000")
    ∧ format_value (S ("Salary_c_b")) (Value.int 5000) = S ("₹5,000") := by
  refine ⟨?_, ?_, ?_, ?_, by decide, by decide⟩
  · intro key v q hq h1
    simp [format_value, format_value_ne_none hq, h1, hq]
  · intro key v q hq h1 h2
    simp [format_value, format_value_ne_none hq, h1, h2, hq]
  · intro key v q hq h1 h2 h3
    exact ⟨by simp [format_value, format_value_ne_none hq, h1, h2, h3, hq], format2d_shape q⟩
  · intro key v hv h1 h2 h3
    simp [format_value, hv, h1, h2, h3]

/-- Witness for claim C1: the universal clauses applied at the concrete
inputs of the claim, one per directive and one undirected. -/
theorem claim_C1_witness :
    format_value (S ("Users_comma_b")) (Value.int 1000000) = intComma (ratTrunc ((1000000 : Int) : ℚ))
    ∧ format_value (S ("Salary_c_b")) (Value.int 5000) = '₹' :: intComma (ratTrunc ((5000 : Int) : ℚ))
    ∧ format_value (S ("Score_2d_i")) (Value.float (Rat.divInt 98456 1000)) = format2d (Rat.divInt 98456 1000)
    ∧ format_value (S ("Department")) (Value.str (S ("IT"))) = pyStr (Value.str (S ("IT"))) :=
  ⟨claim_C1.1 (S ("Users_comma_b")) (Value.int 1000000) ((1000000 : Int) : ℚ) rfl (by decide),
   claim_C1.2.1 (S ("Salary_c_b")) (Value.int 5000) ((5000 : Int) : ℚ) rfl (by decide) (by decide),
   (claim_C1.2.2.1 (S ("Score_2d_i")) (Value.float (Rat.divInt 98456 1000)) (Rat.divInt 98456 1000)
     rfl (by decide) (by decide) (by decide)).1,
   claim_C1.2.2.2.1 (S ("Department")) (Value.str (S ("IT"))) (by decide) (by decide) (by decide) (by decide)⟩

/-- Claim C5: the engine leaves a paragraph whose concatenated run text is
empty, or whose text the placeholder regex does not match, entirely
untouched, and is therefore idempotent on placeholder-free paragraphs. -/
theorem claim_C5 :
    (∀ (data : List (Str × Value)) (para : Paragraph),
        joinRuns para.runs = [] → processParagraph data para = para)
    ∧ (∀ (data : List (Str × Value)) (para : Paragraph),
        findAll (joinRuns para.runs) = [] → processParagraph data para = para)
    ∧ (∀ (data : List (Str × Value)) (para : Paragraph),
        findAll (joinRuns para.runs) = [] →
          processParagraph data (processParagraph data para) = processParagraph data para) := by
  refine ⟨processParagraph_skip_empty, processParagraph_skip_nomatch, ?_⟩
  intro data para h
  rw [processParagraph_skip_nomatch data para h, processParagraph_skip_nomatch data para h]

/-- Witness for claim C5: a concrete placeholder-free paragraph passes
through the engine unchanged. -/
theorem claim_C5_witness :
    processParagraph [(S ("Name"), Value.str (S ("Ana")))]
        ⟨[⟨S ("Hello world."), Option.none, Option.none, Option.none, some 24⟩]⟩
      = ⟨[⟨S ("Hello world."), Option.none, Option.none, Option.none, some 24⟩]⟩ :=
  claim_C5.2.1 [(S ("Name"), Value.str (S ("Ana")))]
    ⟨[⟨S ("Hello world."), Option.none, Option.none, Option.none, some 24⟩]⟩ (by decide)

/-- Claim C6 counterexample: the column name Comcast_2d does not contain
the substring of the currency marker (its only underscore is followed by
the digit 2), so the implemented check order renders it with two decimals,
not as currency: the claim is false at the numeric value 5. -/
theorem claim_C6_counterexample :
    format_value (S ("Comcast_2d")) (Value.int 5) = S ("5.00")
    ∧ format_value (S ("Comcast_2d")) (Value.int 5) ≠ '₹' :: intComma (ratTrunc ((5 : Int) : ℚ)) :=
  ⟨by decide, by decide⟩

/-- Claim C6 as amended: substring matching does make the check order
load-bearing, but for column names that actually contain the currency
marker substring anywhere, such as Total_cost_2d, which renders as
currency although the two-decimal marker is also present; Comcast_2d
itself contains no currency marker substring and renders with two
decimals. -/
theorem claim_C6 :
    (∀ (v : Value) (q : ℚ), toFloat v = some q →
        format_value (S ("Total_cost_2d")) v = '₹' :: intComma (ratTrunc q))
    ∧ (∀ (v : Value) (q : ℚ), toFloat v = some q →
        format_value (S ("Comcast_2d")) v = format2d q)
    ∧ containsSub (S ("_c")) (lowerStr (S ("Comcast_2d"))) = false
    ∧ containsSub (S ("_2d")) (lowerStr (S ("Total_cost_2d"))) = true := by
  refine ⟨?_, ?_, by decide, by decide⟩
  · intro v q hq
    have h1 : containsSub (S ("_comma")) (lowerStr (S ("Total_cost_2d"))) = false := by decide
    have h2 : containsSub (S ("_c")) (lowerStr (S ("Total_cost_2d"))) = true := by decide
    simp [format_value, format_value_ne_none hq, h1, h2, hq]
  · intro v q hq
    have h1 : containsSub (S ("_comma")) (lowerStr (S ("Comcast_2d"))) = false := by decide
    have h2 : containsSub (S ("_c")) (lowerStr (S ("Comcast_2d"))) = false := by decide
    have h3 : containsSub (S ("_2d")) (lowerStr (S ("Comcast_2d"))) = true := by decide
    simp [format_value, format_value_ne_none hq, h1, h2, h3, hq]

/-- Witness for claim C6: both amended clauses applied at the numeric
value 5. -/
theorem claim_C6_witness :
    format_value (S ("Total_cost_2d")) (Value.int 5) = '₹' :: intComma (ratTrunc ((5 : Int) : ℚ))
    ∧ format_value (S ("Comcast_2d")) (Value.int 5) = format2d ((5 : Int) : ℚ) :=
  ⟨claim_C6.1 (Value.int 5) ((5 : Int) : ℚ) rfl,
   claim_C6.2.1 (Value.int 5) ((5 : Int) : ℚ) rfl⟩

/-- Claim C7: for a column name carrying a numeric directive and a string
value that does not parse as a number, `format_value` raises nothing (it
is a total function) and returns the raw string unchanged: the bare
except swallows the parse failure locally. -/
theorem claim_C7 (key s : Str)
    (hdir : containsSub (S ("_comma")) (lowerStr key) = true ∨
      containsSub (S ("_c")) (lowerStr key) = true ∨
      containsSub (S ("_2d")) (lowerStr key) = true)
    (hparse : parseFloat s = Option.none) :
    format_value key (Value.str s) = s := by
  by_cases h1 : containsSub (S ("_comma")) (lowerStr key) = true
  · simp [format_value, toFloat, h1, hparse, pyStr]
  · by_cases h2 : containsSub (S ("_c")) (lowerStr key) = true
    · simp [format_value, toFloat, h1, h2, hparse, pyStr]
    · by_cases h3 : containsSub (S ("_2d")) (lowerStr key) = true
      · simp [format_value, toFloat, h1, h2, h3, hparse, pyStr]
      · simp [format_value, toFloat, h1, h2, h3, pyStr]

/-- Witness for claim C7: the non-numeric cell abc under the currency
directive comes back verbatim. -/
theorem claim_C7_witness :
    format_value (S ("Salary_c_b")) (Value.str (S ("abc"))) = S ("abc") :=
  claim_C7 (S ("Salary_c_b")) (S ("abc")) (Or.inr (Or.inl (by decide))) (by decide)

/-- Claim C8: the style resolver returns three independent Booleans, each
equal to its own case-insensitive substring test, with no mutual exclusion
or precedence; the three concrete examples of the claim are included. -/
theorem claim_C8 :
    (∀ key : Str, get_text_style key =
      ⟨containsSub (S ("_b")) (lowerStr key), containsSub (S ("_i")) (lowerStr key),
        containsSub (S ("_u")) (lowerStr key)⟩)
    ∧ get_text_style (S ("Name_b")) = ⟨true, false, false⟩
    ∧ get_text_style (S ("Score_2d_i")) = ⟨false, true, false⟩
    ∧ get_text_style (S ("Designation")) = ⟨false, false, false⟩ := by
  refine ⟨?_, by decide, by decide, by decide⟩
  intro key
  by_cases hb : containsSub (S ("_b")) (lowerStr key) = true <;>
    by_cases hi : containsSub (S ("_i")) (lowerStr key) = true <;>
      by_cases hu : containsSub (S ("_u")) (lowerStr key) = true <;>
        simp [get_text_style, hb, hi, hu]

/-- Claim C2: a placeholder token whose key is absent from the Data Row is
dropped entirely from the rebuilt paragraph text: for any split of the
text into a brace-free prefix, a well-formed token and a brace-free
suffix, and any row without the key, the rebuilt text is the prefix
followed by the suffix, with neither the braces nor the key surviving;
the engine is a total function, so no error is raised. -/
theorem claim_C2 (data : List (Str × Value)) (rs : List Run) (pre key post : Str)
    (hpre : '{' ∉ pre) (hkey : keyOk key) (hpost : '{' ∉ post)
    (habs : lookupVal data key = Option.none)
    (hjoin : joinRuns rs = pre ++ '{' :: (key ++ '}' :: post)) :
    joinRuns (processParagraph data ⟨rs⟩).runs = pre ++ post := by
  have hps : ∀ p ∈ [(key, post)], chunkOk p := by
    intro p hp
    simp only [List.mem_singleton] at hp
    subst hp
    exact ⟨hkey, hpost⟩
  have h := processParagraph_chunks data rs pre [(key, post)] hpre hps (by simp) hjoin
  rw [h]
  show joinRuns (expectedRuns data (headSize rs) pre [(key, post)]) = pre ++ post
  rw [joinRuns_expectedRuns]
  simp [renderText, habs]

/-- Witness for claim C2: the paragraph of the claim, Hello token bang,
with a row lacking the key Foo, rebuilds to Hello bang. -/
theorem claim_C2_witness :
    joinRuns (processParagraph [(S ("Name"), Value.str (S ("Ana")))]
        ⟨[⟨S ("Hello \x7bFoo\x7d!"), Option.none, Option.none, Option.none, Option.none⟩]⟩).runs
      = S ("Hello !") := by
  have h := claim_C2 [(S ("Name"), Value.str (S ("Ana")))]
    [⟨S ("Hello \x7bFoo\x7d!"), Option.none, Option.none, Option.none, Option.none⟩]
    (S ("Hello ")) (S ("Foo")) (S ("!"))
    (by decide) (by decide) (by decide) (by decide) (by decide)
  rw [h]
  decide

/-- Claim C3: a key present in the Data Row that occurs as a token twice
in one paragraph is substituted independently at each occurrence with the
same formatted value, the same explicit bold, italic and underline flags
and the same baseline font size (the two value runs are the identical run
record), with the literal text around and between the occurrences
preserved. -/
theorem claim_C3 (data : List (Str × Value)) (rs : List Run) (t0 mid tl key : Str) (v : Value)
    (h0 : '{' ∉ t0) (hmid : '{' ∉ mid) (htl : '{' ∉ tl) (hkey : keyOk key)
    (hv : lookupVal data key = some v)
    (hjoin : joinRuns rs = t0 ++ '{' :: (key ++ '}' :: (mid ++ '{' :: (key ++ '}' :: tl)))) :
    processParagraph data ⟨rs⟩ =
      ⟨(if t0 = [] then [] else [plainRun t0 (headSize rs)]) ++
        [valueRun key v (headSize rs)] ++
        ((if mid = [] then [] else [plainRun mid (headSize rs)]) ++
          [valueRun key v (headSize rs)] ++
          (if tl = [] then [] else [plainRun tl (headSize rs)]))⟩
    ∧ joinRuns (processParagraph data ⟨rs⟩).runs
        = t0 ++ format_value key v ++ mid ++ format_value key v ++ tl := by
  have hps : ∀ p ∈ [(key, mid), (key, tl)], chunkOk p := by
    intro p hp
    simp only [List.mem_cons, List.mem_singleton, List.not_mem_nil, or_false] at hp
    rcases hp with rfl | rfl
    · exact ⟨hkey, hmid⟩
    · exact ⟨hkey, htl⟩
  have h := processParagraph_chunks data rs t0 [(key, mid), (key, tl)] h0 hps (by simp) hjoin
  constructor
  · rw [h]
    simp only [expectedRuns, hv]
  · rw [h]
    show joinRuns (expectedRuns data (headSize rs) t0 [(key, mid), (key, tl)])
      = t0 ++ format_value key v ++ mid ++ format_value key v ++ tl
    rw [joinRuns_expectedRuns]
    simp [renderText, hv, List.append_assoc]

/-- Witness for claim C3: the paragraph token Name and token Name with
Name bound to Ana rebuilds to Ana and Ana. -/
theorem claim_C3_witness :
    joinRuns (processParagraph [(S ("Name"), Value.str (S ("Ana")))]
        ⟨[⟨S ("\x7bName\x7d and \x7bName\x7d"), Option.none, Option.none, Option.none,
          Option.none⟩]⟩).runs
      = S ("Ana and Ana") := by
  have h := (claim_C3 [(S ("Name"), Value.str (S ("Ana")))]
    [⟨S ("\x7bName\x7d and \x7bName\x7d"), Option.none, Option.none, Option.none, Option.none⟩]
    [] (S (" and ")) [] (S ("Name")) (Value.str (S ("Ana")))
    (by decide) (by decide) (by decide) (by decide) (by decide) (by decide)).2
  rw [h]
  decide

/-- Claim C4 is a code bug, witnessed here: the regex group trims the
whitespace inside braces, the loop then reconstructs the placeholder
without that whitespace, `str.find` fails to find it and returns -1, and
the paragraph is rebuilt corrupted.  On the paragraph
Hello open-brace key close-brace world with the key bound, the engine
produces the value followed by a garbled tail of the original text
instead of replacing the token in place as the claim states. -/
theorem claim_C4 :
    joinRuns (processParagraph [(S ("key"), Value.str (S ("X")))]
        ⟨[⟨S ("Hello \x7b key \x7d world"), Option.none, Option.none, Option.none,
          Option.none⟩]⟩).runs
      = S ("Xo \x7b key \x7d world")
    ∧ joinRuns (processParagraph [(S ("key"), Value.str (S ("X")))]
        ⟨[⟨S ("Hello \x7b key \x7d world"), Option.none, Option.none, Option.none,
          Option.none⟩]⟩).runs
      ≠ S ("Hello X world") :=
  ⟨by decide, by decide⟩

/-- Claim C9: structural validation failures, fewer than two columns or a
first or second column violating the case-insensitive reserved-prefix
rule, halt the pipeline with a human-readable diagnostic before any
document is generated, and an error outcome never carries output; the
FullName example of the claim is included. -/
theorem claim_C9 :
    (∀ (t : Doc) (cols : List Str) (rows : List (List Value)), cols.length < 2 →
        ∃ m, runApp t cols rows = Except.error m)
    ∧ (∀ (t : Doc) (c0 c1 : Str) (rest : List Str) (rows : List (List Value)),
        isPre (S ("ecode")) (lowerStr c0) = false →
        ∃ m, runApp t (c0 :: c1 :: rest) rows = Except.error m)
    ∧ (∀ (t : Doc) (c0 c1 : Str) (rest : List Str) (rows : List (List Value)),
        isPre (S ("name")) (lowerStr c1) = false →
        ∃ m, runApp t (c0 :: c1 :: rest) rows = Except.error m)
    ∧ (∀ (t : Doc) (cols : List Str) (rows : List (List Value)) (m : Str)
        (out : List (Str × Doc)),
        runApp t cols rows = Except.error m → runApp t cols rows ≠ Except.ok out)
    ∧ (∀ (t : Doc) (rows : List (List Value)),
        runApp t [S ("ECode"), S ("FullName")] rows
          = Except.error (S ("Second column must start with Name."))) := by
  refine ⟨?_, ?_, ?_, ?_, ?_⟩
  · intro t cols rows h
    rcases cols with _ | ⟨c0, _ | ⟨c1, r⟩⟩
    · exact ⟨_, rfl⟩
    · exact ⟨_, rfl⟩
    · simp [List.length_cons] at h
      omega
  · intro t c0 c1 rest rows h
    exact ⟨S ("First column must start with ECode."), by simp [runApp, h]⟩
  · intro t c0 c1 rest rows h
    by_cases h0 : isPre (S ("ecode")) (lowerStr c0) = false
    · exact ⟨S ("First column must start with ECode."), by simp [runApp, h0]⟩
    · exact ⟨S ("Second column must start with Name."), by simp [runApp, h0, h]⟩
  · intro t cols rows m out h hc
    rw [h] at hc
    exact Except.noConfusion hc
  · intro t rows
    rfl

/-- Witness for claim C9: a second column named FullName halts with a
diagnostic and produces no archive. -/
theorem claim_C9_witness :
    ∃ m, runApp (⟨[], []⟩ : Doc) (S ("ECode") :: S ("FullName") :: []) []
      = Except.error m :=
  claim_C9.2.2.1 ⟨[], []⟩ (S ("ECode")) (S ("FullName")) [] [] (by decide)

/-- Claim C10: the archive receives exactly one entry per data row, in row
order, keyed by the per-row filename; `writestr` never overwrites or
deduplicates, so two rows with identical identifier and name columns yield
two distinct entries bearing the same name, as the concrete scenario with
rows differing only in a third column shows. -/
theorem claim_C10 :
    (∀ (template : Doc) (cols : List Str) (rows : List (List Value)),
        (generateZip template cols rows).length = rows.length
        ∧ (generateZip template cols rows).map Prod.fst = rows.map rowFilename)
    ∧ (∃ d1 d2 : Doc,
        generateZip tmplC10 colsC10 [rowC10A, rowC10B]
          = [(S ("E1_Bob.docx"), d1), (S ("E1_Bob.docx"), d2)] ∧ d1 ≠ d2) := by
  constructor
  · intro template cols rows
    constructor
    · simp [generateZip]
    · simp [generateZip]
  · exact ⟨replace_placeholders tmplC10 (buildRowData colsC10 rowC10A),
      replace_placeholders tmplC10 (buildRowData colsC10 rowC10B), by decide, by decide⟩

end SLG
